import Mathlib

/-!
Verification of the outline/extraction engine of `ast-read-tools`
(`ast-read-mcp/build/tools/read.js`, class `AstReadTool`).

The embedding models the reference JavaScript grammar adapter:

* a JS string is a `List Char` (one `Char` per Unicode scalar value);
  a source file is its `content : List Char` or its derived line array
  `lines : List Line` (`content.split("\n")` in JS);
* the Babel syntax tree is abstracted to the list of declaration-shaped
  nodes in document (traversal) order — exactly the nodes the tool's
  visitors fire on: `FunctionDeclaration`, `VariableDeclarator` with a
  function-like initializer, `ClassDeclaration` (with its member list),
  import- and export-shaped statements;
* the parser is abstracted as an `Except ParseError Tree` outcome, since
  `@babel/parser` itself is an external collaborator;
* fields of the JS result objects that no property here mentions
  (column, async flag, signature text, jsdoc) are projected away.
-/

namespace AstRead

/-- A source line, as the JS string between two newline characters. -/
abbrev Line := List Char

/-- The `type` field the tool writes on a function record:
`"function_declaration"`, `"arrow_function"` or `"function_expression"`. -/
inductive FuncType where
  | functionDeclaration
  | arrowFunction
  | functionExpression
deriving DecidableEq, Repr

/-- A function record as pushed by the outline traversal
(`{name, line, type, ...}`); display-only fields are omitted. -/
structure FuncRec where
  name : String
  line : Nat
  ftype : FuncType
deriving DecidableEq, Repr

/-- The dedup key `${func.name}:${func.line}:${func.type}` — two records
have the same key iff name, line and type all agree. -/
def sameKey (a b : FuncRec) : Bool :=
  a.name == b.name && a.line == b.line && a.ftype == b.ftype

/-- `existingFunc.name === func.name && Math.abs(existingFunc.line - func.line) <= 2`. -/
def nearby (a b : FuncRec) : Bool :=
  a.name == b.name && (max a.line b.line - min a.line b.line ≤ 2)

/-- `seen.has(key)`: some entry of `seen` has the same key as `f`. -/
def hasKey (seen : List FuncRec) (f : FuncRec) : Bool :=
  seen.any (fun g => sameKey g f)

/-- The `for..of seen.entries()` scan: first entry (in insertion order)
with the same name and a start line within 2. -/
def findNearby (seen : List FuncRec) (f : FuncRec) : Option FuncRec :=
  seen.find? (fun g => nearby g f)

/-- `func.type === "function_declaration" && existingFunc.type !== "function_declaration"`. -/
def declWins (f g : FuncRec) : Bool :=
  f.ftype == FuncType.functionDeclaration && !(g.ftype == FuncType.functionDeclaration)

/-- `seen.delete(existingKey); seen.set(key, func)`: the entry with `g`'s
key is removed and `f` is appended (JS `Map` iterates in insertion order,
and a fresh key is appended at the end). -/
def replaceSeen (seen : List FuncRec) (g f : FuncRec) : List FuncRec :=
  seen.eraseP (fun x => sameKey x g) ++ [f]

/-- One run of the `functions.filter` callback of `deduplicateFunctions`:
given the current `seen` map and the element, return the boolean the
callback returns together with the `seen` map after its mutations.
Branches, in the callback's order: exact-key hit → drop; first nearby
entry found → replace-and-keep when the newcomer is declared and the
entry is not, drop otherwise; no conflict → record-and-keep. -/
def dedupeStep (seen : List FuncRec) (f : FuncRec) : Bool × List FuncRec :=
  if hasKey seen f then (false, seen)
  else
    match findNearby seen f with
    | some g =>
      if declWins f g then (true, replaceSeen seen g f) else (false, seen)
    | none => (true, seen ++ [f])

/-- The body of `deduplicateFunctions`: `functions.filter(...)` threaded
with the mutable `seen` map. Each element is kept or dropped by the state
at its own turn, exactly as `Array.prototype.filter` decides. -/
def dedupeAux (seen : List FuncRec) : List FuncRec → List FuncRec
  | [] => []
  | f :: rest =>
    if (dedupeStep seen f).1 then f :: dedupeAux (dedupeStep seen f).2 rest
    else dedupeAux (dedupeStep seen f).2 rest

/-- `deduplicateFunctions(functions)` of `read.js`. -/
def deduplicateFunctions (fns : List FuncRec) : List FuncRec :=
  dedupeAux [] fns

/-! ### `full` mode (`readFull`) and `lines` mode (`execute` + `readLines`) -/

/-- UTF-16 code units of one Unicode scalar value: what one character
contributes to a JS string's `.length`. -/
def utf16Units (c : Char) : Nat :=
  if c.toNat < 0x10000 then 1 else 2

/-- `content.length` of the JS string holding the file text. -/
def jsLength (content : List Char) : Nat :=
  (content.map utf16Units).sum

/-- UTF-8 bytes of one Unicode scalar value. -/
def utf8Bytes (c : Char) : Nat :=
  if c.toNat < 0x80 then 1
  else if c.toNat < 0x800 then 2
  else if c.toNat < 0x10000 then 3 else 4

/-- The byte size of the file: the file is read with encoding `utf-8`,
so its size in bytes is the UTF-8 byte count of its text. -/
def fileByteSize (content : List Char) : Nat :=
  (content.map utf8Bytes).sum

/-- Result object of `readFull` (the constant fields `success:true`,
`mode:"full"` are kept as written). -/
structure FullResult where
  success : Bool
  lineCount : Nat
  sizeBytes : Nat
  content : List Char
deriving DecidableEq, Repr

/-- `readFull(filePath, content)`: `lines = content.split("\n")`,
`line_count = lines.length`, `size_bytes = content.length`. -/
def readFull (content : List Char) : FullResult :=
  { success := true
    lineCount := (content.splitOn '\n').length
    sizeBytes := jsLength content
    content := content }

/-- Outcome of the `lines` mode dispatch (error kinds as tagged by
`createError`; the success payload keeps the reported bounds and slice). -/
inductive LinesOutcome where
  | missingLine
  | lineOutOfRange
  | ok (startLine endLine : Int) (content : List Line)
deriving DecidableEq, Repr

/-- `readLines(params, content)` on the derived line array.  The
`params.linesAbove || 10` / `params.linesBelow || 10` reads map a falsy
(zero) amount back to 10. -/
def readLines (targetLine : Int) (linesAbove linesBelow : Int)
    (lines : List Line) : LinesOutcome :=
  if targetLine < 1 ∨ targetLine > (lines.length : Int) then .lineOutOfRange
  else
    let above := if linesAbove = 0 then 10 else linesAbove
    let below := if linesBelow = 0 then 10 else linesBelow
    let startLine := max 1 (targetLine - above)
    let endLine := min (lines.length : Int) (targetLine + below)
    .ok startLine endLine
      ((lines.drop (startLine - 1).toNat).take (endLine - (startLine - 1)).toNat)

/-- The `mode === "lines"` branch of `execute`: `if (!params.line)`
raises `MISSING_LINE` — a falsy (absent or zero) line — before
`readLines` runs. -/
def linesMode (line? : Option Int) (linesAbove linesBelow : Int)
    (lines : List Line) : LinesOutcome :=
  match line? with
  | none => .missingLine
  | some n => if n = 0 then .missingLine else readLines n linesAbove linesBelow lines

/-! ### The range extractor (`extractCode` inside `readTarget`) -/

/-- The result object built by `extractCode`.  The JS object stores the
three slices already joined with `"\n"`; the model keeps the line lists
(the joined strings are `joinNL` of them). -/
structure TargetCode where
  targetType : String
  targetName : String
  className : Option String
  line : Nat
  endLine : Nat
  codeLines : List Line
  contextBeforeLines : List Line
  contextAfterLines : List Line
deriving DecidableEq, Repr

/-- `extractCode(start, end, targetType, targetName, className)` with the
enclosing `readTarget`'s `lines`, `contextLines` and `params.context`:
`contextStart = Math.max(0, start - contextLines)` (Nat subtraction),
`contextEnd = Math.min(lines.length, end + contextLines)`, and JS
`lines.slice(a, b)` is `(lines.drop a).take (b - a)` for `0 ≤ a`. -/
def extractCode (contextLines : Nat) (includeContext : Bool) (lines : List Line)
    (start endL : Nat) (ttype tname : String) (cname : Option String) : TargetCode :=
  let contextStart := start - contextLines
  let contextEnd := min lines.length (endL + contextLines)
  { targetType := ttype
    targetName := tname
    className := cname
    line := start
    endLine := endL
    codeLines := (lines.drop (start - 1)).take (endL - (start - 1))
    contextBeforeLines :=
      if includeContext then (lines.drop contextStart).take ((start - 1) - contextStart)
      else []
    contextAfterLines :=
      if includeContext then (lines.drop endL).take (contextEnd - endL)
      else [] }

/-- `Array.prototype.join("\n")` on a line list. -/
def joinNL : List Line → List Char
  | [] => []
  | [l] => l
  | l :: l' :: rest => l ++ '\n' :: joinNL (l' :: rest)

/-! ### Declaration-shaped nodes, `readOutline` and `readTarget` -/

/-- A class member with a function-like body (`ClassMethod` with an
identifier key). -/
structure MethodRec where
  name : String
  line : Nat
  endLine : Nat
  isAsync : Bool
  isStatic : Bool
deriving DecidableEq, Repr

/-- A `ClassDeclaration` with its identifier, inclusive line span and
member list. -/
structure ClassDecl where
  name : String
  startLine : Nat
  endLine : Nat
  methods : List MethodRec
deriving DecidableEq, Repr

/-- The declaration-shaped nodes of the Babel tree, listed in document
order — the order in which `traverse` fires the tool's visitors.
`varFunc` is a `VariableDeclarator` whose initializer is an arrow or
function expression; `imp` covers both `ImportDeclaration` and a
`require("...")` call; `expo` covers the export visitors. -/
inductive Node where
  | funcDecl (name : String) (startLine endLine : Nat)
  | varFunc (name : String) (startLine endLine : Nat) (isArrow : Bool)
  | cls (c : ClassDecl)
  | imp (source : String) (line : Nat)
  | expo (isDefault : Bool) (name : Option String) (line : Nat)
deriving DecidableEq, Repr

structure ImportRec where
  source : String
  line : Nat
deriving DecidableEq, Repr

structure ExportRec where
  isDefault : Bool
  name : Option String
  line : Nat
deriving DecidableEq, Repr

/-- The four lists `readOutline` builds. -/
structure FileStructure where
  functions : List FuncRec
  classes : List ClassDecl
  imports : List ImportRec
  exports : List ExportRec
deriving DecidableEq, Repr

/-- `for (let i = start; i <= end; i++) classBodyLines.add(i)`. -/
def spanLines (c : ClassDecl) : List Nat :=
  List.range' c.startLine (c.endLine + 1 - c.startLine)

/-- `classBodyLines.has(line)`. -/
def hasLine (classLines : List Nat) (n : Nat) : Bool :=
  classLines.any (fun m => m == n)

/-- The single traversal of `readOutline`, threading the mutable
`classBodyLines` set: a function-shaped node is pushed unless its start
line is already recorded in a class span; a class node records its whole
span (before later nodes are visited) and is pushed with its members. -/
def outlineAux (classLines : List Nat) : List Node → FileStructure
  | [] => ⟨[], [], [], []⟩
  | Node.funcDecl nm s _e :: rest =>
    if hasLine classLines s then outlineAux classLines rest
    else
      let r := outlineAux classLines rest
      { r with functions := ⟨nm, s, FuncType.functionDeclaration⟩ :: r.functions }
  | Node.varFunc nm s _e isArrow :: rest =>
    if hasLine classLines s then outlineAux classLines rest
    else
      let r := outlineAux classLines rest
      { r with functions :=
          ⟨nm, s, if isArrow then FuncType.arrowFunction else FuncType.functionExpression⟩
            :: r.functions }
  | Node.cls c :: rest =>
    let r := outlineAux (classLines ++ spanLines c) rest
    { r with classes := c :: r.classes }
  | Node.imp src ln :: rest =>
    let r := outlineAux classLines rest
    { r with imports := ⟨src, ln⟩ :: r.imports }
  | Node.expo d nm ln :: rest =>
    let r := outlineAux classLines rest
    { r with exports := ⟨d, nm, ln⟩ :: r.exports }

/-- Parse failures of the syntax-tree provider, classified the way
`getHelpfulHint` matches the message text. -/
inductive ParseError where
  | unexpectedToken (msg : String)
  | unterminated (msg : String)
  | other (msg : String)
deriving DecidableEq, Repr

/-- `getHelpfulHint` (hint texts abbreviated; only their presence and
choice by error class matter here). -/
def parseHint : ParseError → String
  | ParseError.unexpectedToken _ => "syntax unsupported, fall back to full mode"
  | ParseError.unterminated _ => "unclosed brackets or strings, check file syntax"
  | ParseError.other _ => "fall back to full mode without parsing"

/-- `error.constructor.name` of the caught parse error. -/
def errorTypeName : ParseError → String := fun _ => "SyntaxError"

/-- Result of `readOutline`: either the success object carrying the
structure, or the failure object of the `catch` block carrying the error
kind, a hint and the empty `partial_structure`. -/
structure OutlineResult where
  success : Bool
  errorType : Option String
  hint : Option String
  structureData : Option FileStructure
  partialStructure : Option FileStructure
deriving DecidableEq, Repr

/-- `readOutline(params, content, language)`: parse, traverse, dedupe the
function list; on a parse (or traversal) exception return the explicit
failure object with empty lists attached. -/
def readOutline (p : Except ParseError (List Node)) : OutlineResult :=
  match p with
  | Except.error e =>
    { success := false
      errorType := some (errorTypeName e)
      hint := some (parseHint e)
      structureData := none
      partialStructure := some ⟨[], [], [], []⟩ }
  | Except.ok nodes =>
    let r := outlineAux [] nodes
    { success := true
      errorType := none
      hint := none
      structureData := some { r with functions := deduplicateFunctions r.functions }
      partialStructure := none }

/-- `node.body.body.find(member => isClassMethod && key.name === target)`. -/
def findMethod (ms : List MethodRec) (nm : String) : Option MethodRec :=
  ms.find? (fun m => m.name == nm)

/-- What one visited node contributes in `readTarget`'s traversal, for a
given parsed qualifier (`targetType`, optional `className`, `targetName`):
`some` means the visitor sets `result` and calls `path.stop()`.  The
three guarded branches of the `ClassDeclaration` visitor are mutually
exclusive, so the `if`-chain reproduces their sequential `if`s. -/
def nodeMatch (ctx : Nat) (inclCtx : Bool) (lines : List Line)
    (targetType : String) (className : Option String) (targetName : String) :
    Node → Option TargetCode
  | Node.cls c =>
    if targetType == "class" && className == none && c.name == targetName then
      some (extractCode ctx inclCtx lines c.startLine c.endLine "class" targetName none)
    else if (targetType == "class" || targetType == "method")
        && className == some c.name then
      match findMethod c.methods targetName with
      | some m =>
        some (extractCode ctx inclCtx lines m.line m.endLine "method" targetName
          (some c.name))
      | none => none
    else if (targetType == "method" || targetType == "function")
        && className == none then
      match findMethod c.methods targetName with
      | some m =>
        some (extractCode ctx inclCtx lines m.line m.endLine "method" targetName
          (some c.name))
      | none => none
    else none
  | Node.funcDecl nm s e =>
    if targetType == "function" && nm == targetName then
      some (extractCode ctx inclCtx lines s e "function" targetName none)
    else none
  | Node.varFunc nm s e _ =>
    if targetType == "function" && nm == targetName then
      some (extractCode ctx inclCtx lines s e "function" targetName none)
    else none
  | Node.imp _ _ => none
  | Node.expo _ _ _ => none

/-- `readTarget` for the entity qualifiers: the traversal visits the
declaration-shaped nodes in document order and the first visitor that
matches stops the walk; `none` is the `TARGET_NOT_FOUND` outcome. -/
def readTarget (targetType : String) (className : Option String) (targetName : String)
    (ctx : Nat) (inclCtx : Bool) (lines : List Line) (nodes : List Node) :
    Option TargetCode :=
  nodes.findSome? (nodeMatch ctx inclCtx lines targetType className targetName)

/-! ### Auxiliary notions used by the statements and proofs -/

/-- The `classBodyLines` state after the outline traversal has visited a
prefix of the node list. -/
def classLinesAfter (classLines : List Nat) : List Node → List Nat
  | [] => classLines
  | n :: rest =>
    match n with
    | Node.cls c => classLinesAfter (classLines ++ spanLines c) rest
    | _ => classLinesAfter classLines rest

/-- Componentwise concatenation of two outline structures. -/
def sApp (a b : FileStructure) : FileStructure :=
  ⟨a.functions ++ b.functions, a.classes ++ b.classes,
    a.imports ++ b.imports, a.exports ++ b.exports⟩

/-- The start line of a function-shaped node (a top-level declared or
variable-bound function), `none` for every other node kind. -/
def funcShapeLine : Node → Option Nat
  | Node.funcDecl _ s _ => some s
  | Node.varFunc _ s _ _ => some s
  | _ => none

/-! ### Concrete fixtures for witnesses and counterexamples -/

/-- Line `n` of the ten-line example file (a one-character line). -/
def exLine (n : Nat) : Line := [Char.ofNat (48 + n)]

/-- A ten-line example file, lines 1 through 10. -/
def exLines10 : List Line := (List.range 10).map (fun i => exLine (i + 1))

/-- A class `C` on lines 1-3 with a method `foo` on line 2. -/
def exClassC : ClassDecl := ⟨"C", 1, 3, [⟨"foo", 2, 2, false, false⟩]⟩

/-- A class `D` on lines 1-3 whose only method is `bar`. -/
def exClassD : ClassDecl := ⟨"D", 1, 3, [⟨"bar", 2, 2, false, false⟩]⟩

/-- A file whose class with a method `foo` precedes a top-level function
`foo` (on lines 5-6). -/
def exNodesC1 : List Node := [Node.cls exClassC, Node.funcDecl "foo" 5 6]

/-! ### Helper lemmas -/

/-- When the filter callback returns `false` it has not touched `seen`. -/
lemma dedupeStep_false (s : List FuncRec) (f : FuncRec)
    (h : (dedupeStep s f).1 = false) : (dedupeStep s f).2 = s := by
  unfold dedupeStep at *
  by_cases h1 : hasKey s f = true
  · simp [h1]
  · cases hfind : findNearby s f with
    | none => simp [h1, hfind] at h
    | some g =>
      by_cases h2 : declWins f g = true
      · simp [h1, hfind, h2] at h
      · simp [h1, hfind, h2]

/-- The callback's verdict depends only on the pair `(seen, element)`, so
re-filtering the kept elements from the same starting map replays the
same verdicts: the filtered list is a fixed point. -/
lemma dedupeAux_idem (l : List FuncRec) :
    ∀ s, dedupeAux s (dedupeAux s l) = dedupeAux s l := by
  induction l with
  | nil => intro s; rfl
  | cons f rest ih =>
    intro s
    cases hstep : dedupeStep s f with
    | mk b s' =>
      cases b with
      | false =>
        have hs : s' = s := by
          have := dedupeStep_false s f (by rw [hstep])
          rw [hstep] at this; exact this
        simp only [dedupeAux, hstep]
        rw [hs]
        exact ih s
      | true =>
        simp only [dedupeAux, hstep, if_true]
        exact congrArg (List.cons f) (ih s')

/-- Any `slice` of a list is one of its contiguous infixes. -/
lemma take_drop_contig {α : Type} (l : List α) (a b : Nat) :
    (l.drop a).take b <:+: l := by
  refine ⟨l.take a, (l.drop a).drop b, ?_⟩
  rw [List.append_assoc, List.take_append_drop, List.take_append_drop]

/-- Two adjacent slices of the same list glue to one slice. -/
lemma slice_glue {α : Type} (l : List α) (a b c : Nat) (hab : a ≤ b) (hbc : b ≤ c) :
    (l.drop a).take (b - a) ++ (l.drop b).take (c - b) = (l.drop a).take (c - a) := by
  have h1 : c - a = (b - a) + (c - b) := by omega
  rw [h1, List.take_add, List.drop_drop]
  have h2 : a + (b - a) = b := by omega
  rw [h2]

lemma joinNL_cons (a : Line) (l : List Line) (h : l ≠ []) :
    joinNL (a :: l) = a ++ '\n' :: joinNL l := by
  cases l with
  | nil => exact absurd rfl h
  | cons b t => rfl

lemma joinNL_append (xs ys : List Line) (hx : xs ≠ []) (hy : ys ≠ []) :
    joinNL (xs ++ ys) = joinNL xs ++ '\n' :: joinNL ys := by
  induction xs with
  | nil => exact absurd rfl hx
  | cons a t ih =>
    cases t with
    | nil =>
      rw [List.singleton_append, joinNL_cons a ys hy]
      rfl
    | cons b t2 =>
      have ht : (b :: t2 : List Line) ≠ [] := by simp
      have htys : ((b :: t2) ++ ys : List Line) ≠ [] := by simp
      rw [List.cons_append, joinNL_cons a _ htys, ih ht, joinNL_cons a _ ht,
        List.append_assoc, List.cons_append]

/-- Joining with newlines preserves contiguity: a contiguous run of lines
joins to a contiguous substring of the joined file. -/
lemma joinNL_contig {l₁ l₂ : List Line} (h : l₁ <:+: l₂) :
    joinNL l₁ <:+: joinNL l₂ := by
  obtain ⟨p, q, hpq⟩ := h
  subst hpq
  by_cases h1 : l₁ = []
  · subst h1
    exact List.nil_infix
  by_cases hp : p = []
  · by_cases hq : q = []
    · subst hp; subst hq
      simp
    · subst hp
      rw [List.nil_append, joinNL_append l₁ q h1 hq]
      exact ⟨[], '\n' :: joinNL q, by simp⟩
  · by_cases hq : q = []
    · subst hq
      rw [List.append_nil, joinNL_append p l₁ hp h1]
      exact ⟨joinNL p ++ ['\n'], [], by simp⟩
    · have hlq : l₁ ++ q ≠ [] := by simp [h1]
      rw [List.append_assoc, joinNL_append p (l₁ ++ q) hp hlq,
        joinNL_append l₁ q h1 hq]
      exact ⟨joinNL p ++ ['\n'], '\n' :: joinNL q, by simp⟩

/-- The outline traversal splits over list concatenation, threading the
`classBodyLines` state left to right. -/
lemma outlineAux_append (xs : List Node) :
    ∀ (L : List Nat) (ys : List Node),
      outlineAux L (xs ++ ys)
        = sApp (outlineAux L xs) (outlineAux (classLinesAfter L xs) ys) := by
  induction xs with
  | nil =>
    intro L ys
    simp [outlineAux, sApp, classLinesAfter]
  | cons n t ih =>
    intro L ys
    cases n with
    | funcDecl nm s e =>
      by_cases h : hasLine L s = true
      · simp [outlineAux, h, classLinesAfter, ih]
      · simp [outlineAux, h, classLinesAfter, ih, sApp]
    | varFunc nm s e arrow =>
      by_cases h : hasLine L s = true
      · simp [outlineAux, h, classLinesAfter, ih]
      · simp [outlineAux, h, classLinesAfter, ih, sApp]
    | cls c =>
      simp [outlineAux, classLinesAfter, ih, sApp]
    | imp src ln =>
      simp [outlineAux, classLinesAfter, ih, sApp]
    | expo d nm ln =>
      simp [outlineAux, classLinesAfter, ih, sApp]

/-- Lines once in `classBodyLines` stay there: visitors only add. -/
lemma classLinesAfter_mono (xs : List Node) :
    ∀ (L : List Nat) (x : Nat), x ∈ L → x ∈ classLinesAfter L xs := by
  induction xs with
  | nil => intro L x hx; exact hx
  | cons n t ih =>
    intro L x hx
    cases n with
    | cls c => exact ih (L ++ spanLines c) x (List.mem_append_left _ hx)
    | funcDecl nm s e => exact ih L x hx
    | varFunc nm s e arrow => exact ih L x hx
    | imp src ln => exact ih L x hx
    | expo d nm ln => exact ih L x hx

/-- A function-shaped node whose start line is already recorded in a
class span contributes nothing to the outline. -/
lemma outlineAux_skip (L : List Nat) (n : Node) (s : Nat) (rest : List Node)
    (hn : funcShapeLine n = some s) (hs : s ∈ L) :
    outlineAux L (n :: rest) = outlineAux L rest := by
  have hline : hasLine L s = true := by
    simp only [hasLine, List.any_eq_true]
    exact ⟨s, hs, by simp⟩
  cases n with
  | funcDecl nm s' e =>
    have : s' = s := by simpa [funcShapeLine] using hn
    subst this
    simp [outlineAux, hline]
  | varFunc nm s' e arrow =>
    have : s' = s := by simpa [funcShapeLine] using hn
    subst this
    simp [outlineAux, hline]
  | cls c => simp [funcShapeLine] at hn
  | imp src ln => simp [funcShapeLine] at hn
  | expo d nm ln => simp [funcShapeLine] at hn

/-- The span of a class node is recorded by the time traversal passes it. -/
lemma span_mem_classLinesAfter (L : List Nat) (pre mid : List Node) (c : ClassDecl)
    (s : Nat) (h1 : c.startLine ≤ s) (h2 : s ≤ c.endLine) :
    s ∈ classLinesAfter L (pre ++ Node.cls c :: mid) := by
  have hspan : s ∈ spanLines c := by
    simp only [spanLines, List.mem_range'_1]
    omega
  induction pre generalizing L with
  | nil =>
    simp only [List.nil_append, classLinesAfter]
    exact classLinesAfter_mono mid _ s (List.mem_append_right _ hspan)
  | cons n t ih =>
    cases n with
    | cls c2 => exact ih (L ++ spanLines c2)
    | funcDecl nm s' e => exact ih L
    | varFunc nm s' e arrow => exact ih L
    | imp src ln => exact ih L
    | expo d nm ln => exact ih L

/-! ### Claim theorems -/

/-- C2 (evaluation at the failing input): on the record list
`[variable-bound f at line 1, declared f at line 2]` — same name, start
lines 1 apart, so the same entity — `deduplicateFunctions` keeps BOTH
records: the filter had already emitted the variable-bound record before
the declared one arrived, and the `seen.delete`/`seen.set` replacement
touches only the lookup map, not the output.  The claim (and the
function's own comment, "Replace the existing entry with this one") says
only the declared record should appear. -/
theorem c2_eval :
    deduplicateFunctions
        [⟨"f", 1, FuncType.arrowFunction⟩, ⟨"f", 2, FuncType.functionDeclaration⟩]
      = [⟨"f", 1, FuncType.arrowFunction⟩, ⟨"f", 2, FuncType.functionDeclaration⟩] := by
  decide

/-- C8: `deduplicateFunctions` is idempotent — re-running it on an
already-deduplicated list is a no-op, because the filter callback's
verdict on each element is a function of the element and the `seen` map
built from the previously kept elements alone, so a second run replays
the first run's verdicts. -/
theorem c8_dedupe_idempotent (l : List FuncRec) :
    deduplicateFunctions (deduplicateFunctions l) = deduplicateFunctions l :=
  dedupeAux_idem l []

/-- C9 (evaluation at the failing input): `readFull` on the one-character
file `"é"` reports `size_bytes = 1` — the JS string's `.length` (UTF-16
code units) — while the file's actual size in bytes (it is read as
UTF-8) is 2.  The field's own name `size_bytes` and the claim both
promise bytes. -/
theorem c9_eval :
    readFull ['é']
        = { success := true, lineCount := 1, sizeBytes := 1, content := ['é'] } ∧
    fileByteSize ['é'] = 2 := by
  decide

/-- C3 (evaluation at the failing input): extracting lines 6-6 of a
ten-line file with `contextLines = 3` yields only lines 4-5 as
before-context (2 lines) but lines 7-9 as after-context (3 lines):
`contextStart = Math.max(0, start - contextLines)` is a 1-based line
number used as a 0-based slice index, so the before window starts at
`start - contextLines + 1`, not the claimed `max(1, start - N) = 3`. -/
theorem c3_eval :
    (extractCode 3 true exLines10 6 6 "function" "f" none).contextBeforeLines
        = [exLine 4, exLine 5] ∧
    (extractCode 3 true exLines10 6 6 "function" "f" none).contextAfterLines
        = [exLine 7, exLine 8, exLine 9] := by
  decide

/-- C6: every slice `extractCode` builds — the code slice and both
context slices — is a contiguous infix of the file's line list, for
every `contextLines` value and every start/end pair: `Math.max`,
`Math.min` and the clamping of `slice` keep all indices inside
`[1, totalLines]`, so extraction is total. -/
theorem c6_slices_in_bounds (N : Nat) (inclCtx : Bool) (lines : List Line)
    (s e : Nat) (tt tn : String) (cn : Option String) :
    (extractCode N inclCtx lines s e tt tn cn).codeLines <:+: lines ∧
    (extractCode N inclCtx lines s e tt tn cn).contextBeforeLines <:+: lines ∧
    (extractCode N inclCtx lines s e tt tn cn).contextAfterLines <:+: lines := by
  refine ⟨take_drop_contig lines (s - 1) (e - (s - 1)), ?_, ?_⟩
  · cases inclCtx with
    | true =>
      show (lines.drop (s - N)).take ((s - 1) - (s - N)) <:+: lines
      exact take_drop_contig lines (s - N) ((s - 1) - (s - N))
    | false =>
      show ([] : List Line) <:+: lines
      exact List.nil_infix
  · cases inclCtx with
    | true =>
      show (lines.drop e).take (min lines.length (e + N) - e) <:+: lines
      exact take_drop_contig lines e (min lines.length (e + N) - e)
    | false =>
      show ([] : List Line) <:+: lines
      exact List.nil_infix

/-- C7: for a successful extraction (`1 ≤ start ≤ end ≤ totalLines`) with
context enabled, before-context, code and after-context are three
adjacent runs of the file's lines: their concatenation is a contiguous
infix of the line list, and joining them with newlines yields a
contiguous, byte-for-byte substring of the newline-joined file text. -/
theorem c7_roundtrip (N : Nat) (lines : List Line) (s e : Nat)
    (tt tn : String) (cn : Option String)
    (h1 : 1 ≤ s) (h2 : s ≤ e) (h3 : e ≤ lines.length) :
    ((extractCode N true lines s e tt tn cn).contextBeforeLines
        ++ ((extractCode N true lines s e tt tn cn).codeLines
          ++ (extractCode N true lines s e tt tn cn).contextAfterLines)) <:+: lines ∧
    joinNL ((extractCode N true lines s e tt tn cn).contextBeforeLines
        ++ ((extractCode N true lines s e tt tn cn).codeLines
          ++ (extractCode N true lines s e tt tn cn).contextAfterLines))
      <:+: joinNL lines := by
  have hbc : (extractCode N true lines s e tt tn cn).contextBeforeLines
      ++ (extractCode N true lines s e tt tn cn).codeLines
      = (lines.drop (min (s - N) (s - 1))).take (e - min (s - N) (s - 1)) := by
    show (lines.drop (s - N)).take ((s - 1) - (s - N))
        ++ (lines.drop (s - 1)).take (e - (s - 1)) = _
    by_cases hcs : s - N ≤ s - 1
    · have ha : min (s - N) (s - 1) = s - N := by omega
      rw [ha]
      exact slice_glue lines (s - N) (s - 1) e hcs (by omega)
    · have hsN : s - N = s := by omega
      have ha : min (s - N) (s - 1) = s - 1 := by omega
      have hz : (s - 1) - (s - N) = 0 := by omega
      rw [ha, hz, List.take_zero, List.nil_append]
  have heq : (extractCode N true lines s e tt tn cn).contextBeforeLines
      ++ ((extractCode N true lines s e tt tn cn).codeLines
        ++ (extractCode N true lines s e tt tn cn).contextAfterLines)
      = (lines.drop (min (s - N) (s - 1))).take
          (min lines.length (e + N) - min (s - N) (s - 1)) := by
    rw [← List.append_assoc, hbc]
    show _ ++ (lines.drop e).take (min lines.length (e + N) - e) = _
    exact slice_glue lines (min (s - N) (s - 1)) e (min lines.length (e + N))
      (by omega) (Nat.le_min.mpr ⟨h3, Nat.le_add_right e N⟩)
  rw [heq]
  exact ⟨take_drop_contig lines _ _,
    joinNL_contig (take_drop_contig lines _ _)⟩

/-- C7 witness: the round-trip property instantiated on the ten-line
example file, extracting lines 3-4 with two lines of context. -/
theorem c7_roundtrip_witness :
    ((extractCode 2 true exLines10 3 4 "function" "f" none).contextBeforeLines
        ++ ((extractCode 2 true exLines10 3 4 "function" "f" none).codeLines
          ++ (extractCode 2 true exLines10 3 4 "function" "f" none).contextAfterLines))
      <:+: exLines10 ∧
    joinNL ((extractCode 2 true exLines10 3 4 "function" "f" none).contextBeforeLines
        ++ ((extractCode 2 true exLines10 3 4 "function" "f" none).codeLines
          ++ (extractCode 2 true exLines10 3 4 "function" "f" none).contextAfterLines))
      <:+: joinNL exLines10 :=
  c7_roundtrip 2 exLines10 3 4 "function" "f" none (by decide) (by decide) (by decide)

/-- C4: a parse failure makes `readOutline` return the explicit failure
object — `success = false` with an error kind, a hint, no structure, and
a degraded `partial_structure` whose four lists are all empty — and a
`success = true` outline can only arise from a successful parse, never
from a parse failure. -/
theorem c4_parse_failure (e : ParseError) (p : Except ParseError (List Node)) :
    (readOutline (Except.error e)).success = false ∧
    (readOutline (Except.error e)).errorType = some (errorTypeName e) ∧
    (readOutline (Except.error e)).hint = some (parseHint e) ∧
    (readOutline (Except.error e)).structureData = none ∧
    (readOutline (Except.error e)).partialStructure
      = some { functions := [], classes := [], imports := [], exports := [] } ∧
    ((readOutline p).success = true ↔ ∃ ns, p = Except.ok ns) := by
  refine ⟨rfl, rfl, rfl, rfl, rfl, ?_⟩
  cases p with
  | error e2 => simp [readOutline]
  | ok ns => simp [readOutline]

/-- C10: in outline mode, a function-shaped node (top-level declared or
variable-bound function) whose start line lies inside the recorded
`[startLine, endLine]` span of a class visited earlier in traversal
order contributes nothing to the result — removing it from the node list
changes nothing — because suppression tests only membership of the line
number in `classBodyLines`, not AST containment.  In particular a
function sharing the single line of a one-line class that precedes it is
suppressed. -/
theorem c10_line_span_suppression (pre mid post : List Node) (c : ClassDecl)
    (n : Node) (s : Nat) (hn : funcShapeLine n = some s)
    (h1 : c.startLine ≤ s) (h2 : s ≤ c.endLine) :
    readOutline (Except.ok (pre ++ Node.cls c :: mid ++ n :: post))
      = readOutline (Except.ok (pre ++ Node.cls c :: mid ++ post)) := by
  have hmem : s ∈ classLinesAfter [] (pre ++ Node.cls c :: mid) :=
    span_mem_classLinesAfter [] pre mid c s h1 h2
  have hkey : outlineAux [] ((pre ++ Node.cls c :: mid) ++ n :: post)
      = outlineAux [] ((pre ++ Node.cls c :: mid) ++ post) := by
    rw [outlineAux_append (pre ++ Node.cls c :: mid) [] (n :: post),
      outlineAux_append (pre ++ Node.cls c :: mid) [] post,
      outlineAux_skip (classLinesAfter [] (pre ++ Node.cls c :: mid)) n s post hn hmem]
  simp only [readOutline]
  rw [hkey]

/-- C10 witness: the one-line class `class C {}` followed on the same
source line by `function f(){}` — the function is on line 1, inside the
class's recorded span `[1, 1]`, so the outline is the same as if the
function were absent: zero functions. -/
theorem c10_witness :
    funcShapeLine (Node.funcDecl "f" 1 1) = some 1 ∧
    readOutline (Except.ok [Node.cls ⟨"C", 1, 1, []⟩, Node.funcDecl "f" 1 1])
      = readOutline (Except.ok [Node.cls ⟨"C", 1, 1, []⟩]) :=
  ⟨rfl, c10_line_span_suppression [] [] [] ⟨"C", 1, 1, []⟩ (Node.funcDecl "f" 1 1) 1
    rfl (by decide) (by decide)⟩

/-- C1 (counterexample): in the file modeled by `exNodesC1` a top-level
function `foo` exists (lines 5-6), yet `function:foo` resolves to the
method `foo` of class `C`, because the class precedes the function in
traversal order and the first matching visitor stops the walk — the
claimed unconditional priority of top-level functions does not hold. -/
theorem c1_counterexample :
    Node.funcDecl "foo" 5 6 ∈ exNodesC1 ∧
    (readTarget "function" none "foo" 5 true exLines10 exNodesC1).map
        (fun r => (r.targetType, r.className))
      = some ("method", some "C") := by
  refine ⟨by simp [exNodesC1], ?_⟩
  rfl

/-- C1 (amended): `function:name` is resolved by first match in document
(traversal) order over the matching nodes — a class containing a method
named `name`, a top-level function declaration named `name`, or a
variable-bound function named `name`: if no node of the prefix matches,
the first matching node's extraction is returned.  A top-level function
is therefore returned exactly when it precedes every class containing a
method of that name, and such a class method wins when its class comes
first. -/
theorem c1_first_match (tn : String) (ctx : Nat) (inclCtx : Bool)
    (lines : List Line) (ns₁ ns₂ : List Node) (n : Node) (r : TargetCode)
    (hpre : ∀ m ∈ ns₁, nodeMatch ctx inclCtx lines "function" none tn m = none)
    (hn : nodeMatch ctx inclCtx lines "function" none tn n = some r) :
    readTarget "function" none tn ctx inclCtx lines (ns₁ ++ n :: ns₂) = some r := by
  unfold readTarget
  induction ns₁ with
  | nil => simp [List.findSome?_cons, hn]
  | cons a t ih =>
    have ha := hpre a (by simp)
    simp only [List.cons_append, List.findSome?_cons, ha]
    exact ih (fun m hm => hpre m (by simp [hm]))

/-- C1 witness: a class `D` with no method `foo` precedes the top-level
function `foo`; no prefix node matches, so `function:foo` returns the
extraction of the function declaration on lines 5-6. -/
theorem c1_first_match_witness :
    readTarget "function" none "foo" 5 true exLines10
        [Node.cls exClassD, Node.funcDecl "foo" 5 6]
      = some (extractCode 5 true exLines10 5 6 "function" "foo" none) :=
  c1_first_match "foo" 5 true exLines10 [Node.cls exClassD] []
    (Node.funcDecl "foo" 5 6) (extractCode 5 true exLines10 5 6 "function" "foo" none)
    (by decide) (by decide)

/-- C5 (counterexample): on the ten-line example file a supplied target
line 0 yields `MISSING_LINE` — `if (!params.line)` treats the falsy 0 as
an absent parameter — contradicting the claim that `MISSING_LINE` occurs
exactly when the request omits the target line. -/
theorem c5_counterexample :
    linesMode (some 0) 10 10 exLines10 = LinesOutcome.missingLine ∧
    Option.isSome (some (0 : Int)) = true := by
  decide

/-- C5 (amended): `MISSING_LINE` exactly when the target line is omitted
or equals 0; `LINE_OUT_OF_RANGE` exactly when a nonzero target line is
supplied that lies outside `[1, L]`; and every supplied target line in
`[1, L]` reaches `readLines` and succeeds with the clamped slice and the
actual bounds used (a zero lines-above/below amount falls back to 10). -/
theorem c5_lines_mode (line? : Option Int) (above below : Int) (lines : List Line) :
    (linesMode line? above below lines = LinesOutcome.missingLine
      ↔ (line? = none ∨ line? = some 0)) ∧
    (linesMode line? above below lines = LinesOutcome.lineOutOfRange
      ↔ ∃ n, line? = some n ∧ n ≠ 0 ∧ (n < 1 ∨ n > (lines.length : Int))) ∧
    (∀ n, line? = some n → 1 ≤ n → n ≤ (lines.length : Int) →
      linesMode line? above below lines = readLines n above below lines ∧
      readLines n above below lines
        = LinesOutcome.ok (max 1 (n - (if above = 0 then 10 else above)))
            (min (lines.length : Int) (n + (if below = 0 then 10 else below)))
            ((lines.drop
                ((max 1 (n - (if above = 0 then 10 else above)) - 1)).toNat).take
              ((min (lines.length : Int) (n + (if below = 0 then 10 else below))
                - (max 1 (n - (if above = 0 then 10 else above)) - 1)).toNat))) := by
  cases line? with
  | none =>
    refine ⟨by simp [linesMode], by simp [linesMode], ?_⟩
    intro n hn
    exact absurd hn (by simp)
  | some m =>
    by_cases hm : m = 0
    · subst hm
      refine ⟨by simp [linesMode], by simp [linesMode], ?_⟩
      intro n hn h1 h2
      cases hn
      omega
    · have hlm : linesMode (some m) above below lines
          = readLines m above below lines := by
        simp [linesMode, hm]
      by_cases hr : m < 1 ∨ m > (lines.length : Int)
      · have hout : readLines m above below lines = LinesOutcome.lineOutOfRange := by
          simp [readLines, hr]
        refine ⟨?_, ?_, ?_⟩
        · rw [hlm, hout]
          simp [hm]
        · rw [hlm, hout]
          exact ⟨fun _ => ⟨m, rfl, hm, hr⟩, fun _ => rfl⟩
        · intro n hn h1 h2
          cases hn
          exact absurd hr (by omega)
      · have hok : readLines m above below lines
            = LinesOutcome.ok (max 1 (m - (if above = 0 then 10 else above)))
                (min (lines.length : Int) (m + (if below = 0 then 10 else below)))
                ((lines.drop
                    ((max 1 (m - (if above = 0 then 10 else above)) - 1)).toNat).take
                  ((min (lines.length : Int) (m + (if below = 0 then 10 else below))
                    - (max 1 (m - (if above = 0 then 10 else above)) - 1)).toNat)) := by
          simp [readLines, hr]
        refine ⟨?_, ?_, ?_⟩
        · rw [hlm, hok]
          simp [hm]
        · rw [hlm, hok]
          refine ⟨fun h => absurd h (by simp), ?_⟩
          rintro ⟨n, hn, hn0, hcond⟩
          cases hn
          exact absurd hcond hr
        · intro n hn h1 h2
          cases hn
          exact ⟨hlm, hok⟩

/-- C5 witness: target line 3 with one line of context each way on the
ten-line example file succeeds with the clamped bounds 2-4. -/
theorem c5_lines_mode_witness :
    linesMode (some 3) 1 1 exLines10
      = LinesOutcome.ok 2 4 [exLine 2, exLine 3, exLine 4] := by
  have h := (c5_lines_mode (some 3) 1 1 exLines10).2.2 3 rfl (by decide) (by decide)
  rw [h.1, h.2]
  decide

end AstRead
